import Mathlib

/-!
# Verification of the Car-price-predict data pipeline

Shallow embedding of the two scripts `src/data/data_cleaning.py` and
`src/data/data_preparation.py`.

A pandas `DataFrame` is embedded as an ordered association list of named
columns; a column carries its pandas dtype (`object` or `float64`) together
with its cell values.  A cell value is a string, a float (represented
exactly as a rational, since every value the pipeline manipulates is a
finite decimal), or the missing marker `NaN`.

Python exceptions are embedded with `Except`: the `.error` constructor
carries the dataset state at the moment the exception is raised, because the
scripts mutate the frame column-assignment by column-assignment and their
`try`/`except` blocks return the partially transformed frame.
-/

namespace CarPrice

/-- A cell value of a data frame: a string, a (finite-decimal) float
represented exactly as a rational, or the missing marker `np.nan`. -/
inductive Value where
  | vstr (s : String)
  | vfloat (q : ℚ)
  | vnan
deriving DecidableEq, Repr

/-- The pandas dtype of a column: `object` (textual / mixed) or `float64`. -/
inductive Dtype where
  | objectD
  | floatD
deriving DecidableEq, Repr

/-- A column of a data frame: its dtype together with its cell values. -/
structure Col where
  dtype : Dtype
  vals : List Value
deriving DecidableEq, Repr

/-- A data frame: an ordered association list of named columns. -/
abbrev Dataset := List (String × Col)

/-- Column lookup, `data[name]`: the first column carrying `name`. -/
def getCol : Dataset → String → Option Col
  | [], _ => none
  | (n, c) :: rest, name => if n = name then some c else getCol rest name

/-- Column membership, `name in data.columns`. -/
def hasCol (d : Dataset) (name : String) : Bool :=
  (getCol d name).isSome

/-- Column assignment, `data[name] = c`: replaces the first column carrying
`name`; assigning to an absent name appends a new column (pandas
behaviour). -/
def setCol : Dataset → String → Col → Dataset
  | [], name, c => [(name, c)]
  | (n, c0) :: rest, name, c =>
      if n = name then (n, c) :: rest else (n, c0) :: setCol rest name c

/-- The column names of a frame, `data.columns`, in order. -/
def colNames (d : Dataset) : List String :=
  d.map (·.1)

/-- `Series.replace(old, new)`: exact whole-value matching, dtype preserved
(pandas without silent downcasting). -/
def seriesReplace (old new : Value) (c : Col) : Col :=
  ⟨c.dtype, c.vals.map (fun v => if v = old then new else v)⟩

/-- Whether the `.str` accessor is available on a column.  Pandas raises
`AttributeError` unless the column has `object` dtype and its inferred
element type is string-like: a mixed column containing at least one string
is accepted, an all-`NaN` column is accepted (inferred `empty`), and a
column of floats is rejected. -/
def strAccessorOk (c : Col) : Bool :=
  c.dtype = Dtype.objectD &&
    (c.vals.any (fun v => match v with | Value.vstr _ => true | _ => false) ||
     c.vals.all (fun v => v = Value.vnan))

/-- `Series.str.replace` with string transformer `f`: strings are mapped
through `f`, every non-string cell (floats included) becomes `NaN`, and the
result has `object` dtype.  Returns `none` when the `.str` accessor raises. -/
def strReplaceWith (f : String → String) (c : Col) : Option Col :=
  if strAccessorOk c then
    some ⟨Dtype.objectD, c.vals.map (fun v =>
      match v with
      | Value.vstr s => Value.vstr (f s)
      | _ => Value.vnan)⟩
  else none

/-- Removing every comma from a string: the effect of
`str.replace(",", "", regex=True)`, since a comma is a literal regex. -/
def commaStrip (s : String) : String :=
  ⟨s.data.filter (fun ch => ch ≠ ',')⟩

/-- The effect of `str.replace("$", "", regex=True)`: with `regex=True` the
pattern `$` is the end-of-string anchor, a zero-width match, so substituting
it with the empty string returns the string unchanged — the dollar sign is
NOT removed. -/
def dollarAnchorSub (s : String) : String :=
  s

/-- The numeric value of a run of decimal digits. -/
def digitsToNat (cs : List Char) : Nat :=
  cs.foldl (fun a ch => a * 10 + (ch.toNat - 48)) 0

/-- The unsigned part of the Python/NumPy float grammar: digits with an
optional fractional part.  (The exotic forms `inf`/`nan`/exponents are not
modelled; no value in the claims needs them.) -/
def parseUnsigned (l : List Char) : Option ℚ :=
  let ds := l.takeWhile Char.isDigit
  let rest := l.dropWhile Char.isDigit
  match rest with
  | [] => if ds = [] then none else some (digitsToNat ds)
  | '.' :: frac =>
      if frac.all Char.isDigit && (ds ≠ [] || frac ≠ []) then
        some ((digitsToNat ds : ℚ) + (digitsToNat frac : ℚ) / (10 : ℚ) ^ frac.length)
      else none
  | _ => none

/-- Parsing a string as a float, `float(s)`. -/
def parseFloat? (s : String) : Option ℚ :=
  match s.data with
  | '-' :: rest => (parseUnsigned rest).map (fun q => -q)
  | '+' :: rest => parseUnsigned rest
  | l => parseUnsigned l

/-- Coercion of a single cell under `astype(float)`: floats and `NaN` pass
through, strings are parsed, an unparseable string raises. -/
def parseValFloat : Value → Option Value
  | Value.vnan => some Value.vnan
  | Value.vfloat q => some (Value.vfloat q)
  | Value.vstr s => (parseFloat? s).map Value.vfloat

/-- Sequencing an option-valued map over a list (explicit recursion to keep
proofs elementary). -/
def optMap (f : Value → Option Value) : List Value → Option (List Value)
  | [] => some []
  | v :: vs =>
      match f v, optMap f vs with
      | some w, some ws => some (w :: ws)
      | _, _ => none

/-- `Series.astype(float)`: every cell coerced to float; raises (returns
`none`) as soon as one cell is an unparseable string; the result has
`float64` dtype. -/
def astypeFloat (c : Col) : Option Col :=
  (optMap parseValFloat c.vals).map (fun vs => ⟨Dtype.floatD, vs⟩)

/-- The `Unnamed: 0` removal step of `data_cleaning_numerical`:
`if "Unnamed: 0" in data.columns: data.drop("Unnamed: 0", axis=1)`.
`DataFrame.drop` removes every column carrying the label. -/
def dropUnnamedStep (d : Dataset) : Dataset :=
  if hasCol d "Unnamed: 0" then d.filter (fun p => p.1 ≠ "Unnamed: 0") else d

/-- The per-column loop of `data_cleaning_numerical` over
`column_clean = ["price", "mileage"]`:
`data[col] = data[col].replace("na", np.nan)`;
`data[col] = data[col].str.replace(",", "", regex=True)`;
`data[col] = data[col].str.replace("$", "", regex=True)`;
`data[col] = data[col].astype(float)`.
An `.error` result carries the frame at the moment an exception is raised
(missing column: `KeyError`; `.str` on a non-string column:
`AttributeError`; unparseable string: `ValueError`). -/
def cleanNumCols (d : Dataset) : List String → Except Dataset Dataset
  | [] => Except.ok d
  | col :: rest =>
      match getCol d col with
      | none => Except.error d
      | some c =>
          let c1 := seriesReplace (Value.vstr "na") Value.vnan c
          let d1 := setCol d col c1
          match strReplaceWith commaStrip c1 with
          | none => Except.error d1
          | some c2 =>
              let d2 := setCol d1 col c2
              match strReplaceWith dollarAnchorSub c2 with
              | none => Except.error d2
              | some c3 =>
                  let d3 := setCol d2 col c3
                  match astypeFloat c3 with
                  | none => Except.error d3
                  | some c4 => cleanNumCols (setCol d3 col c4) rest

/-- The body of `data_cleaning_numerical` (the content of its `try` block):
drop `Unnamed: 0` if present, then
`data["date"] = data["date"].replace("na", np.nan).astype(float)`
(a single expression: nothing is assigned if the coercion raises), then the
`price`/`mileage` loop. -/
def cleanNumBody (d0 : Dataset) : Except Dataset Dataset :=
  let d := dropUnnamedStep d0
  match getCol d "date" with
  | none => Except.error d
  | some c =>
      match astypeFloat (seriesReplace (Value.vstr "na") Value.vnan c) with
      | none => Except.error d
      | some c' => cleanNumCols (setCol d "date" c') ["price", "mileage"]

/-- The `except` wrapper shared by the cleaning stages: an exception is
caught and the partially transformed frame is returned. -/
def runCatch : Except Dataset Dataset → Dataset
  | Except.ok d => d
  | Except.error d => d

/-- `data_cleaning_numerical` of `data_cleaning.py`: the body under a
blanket `try`/`except` that logs and returns the (partial) frame. -/
def data_cleaning_numerical (d : Dataset) : Dataset :=
  runCatch (cleanNumBody d)

/-- Whether a named column counts as numerical in `divide_columns`:
`data[feature].dtype != "O"`. -/
def isNumericName (d : Dataset) (n : String) : Bool :=
  match getCol d n with
  | some c => c.dtype ≠ Dtype.objectD
  | none => false

/-- `divide_columns` of `data_cleaning.py`: numerical features are the
columns whose dtype is not `object`; categorical features are the remaining
column names. -/
def divide_columns (d : Dataset) : List String × List String :=
  let nums := (colNames d).filter (isNumericName d)
  let cats := (colNames d).filter (fun n => ¬ nums.contains n)
  (nums, cats)

/-- The value substitution `data_clean_categorical` applies to the column
named `column`: in `transmission` the literal string `"0"` becomes
`"Other"`, in every other listed column the sentinel `"na"` becomes
`NaN`. -/
def catRule (column : String) (v : Value) : Value :=
  if column = "transmission" then
    if v = Value.vstr "0" then Value.vstr "Other" else v
  else
    if v = Value.vstr "na" then Value.vnan else v

/-- The whole-column effect of one iteration of the
`data_clean_categorical` loop. -/
def colRule (column : String) (c : Col) : Col :=
  ⟨c.dtype, c.vals.map (catRule column)⟩

/-- The body of `data_clean_categorical` (the content of its `try` block):
a loop over the listed columns, each one read (`KeyError` if absent —
`.error` carries the frame at that moment) and reassigned through
`Series.replace`. -/
def cleanCatBody (d : Dataset) : List String → Except Dataset Dataset
  | [] => Except.ok d
  | column :: rest =>
      match getCol d column with
      | none => Except.error d
      | some c => cleanCatBody (setCol d column (colRule column c)) rest

/-- `data_clean_categorical` of `data_cleaning.py`: the loop under a
blanket `try`/`except` that logs and returns the (partial) frame. -/
def data_clean_categorical (d : Dataset) (categorical_features : List String) : Dataset :=
  runCatch (cleanCatBody d categorical_features)

/-- The cleaning pipeline of the `__main__` block of `data_cleaning.py`
applied to a loaded frame: numerical cleaning, column division, categorical
cleaning. -/
def cleaningPipeline (d : Dataset) : Dataset :=
  let d1 := data_cleaning_numerical d
  let features := divide_columns d1
  data_clean_categorical d1 features.2

/-- The whole cleaning run of `data_cleaning.py`: `read_csv` returns `none`
on any read failure (caught and logged); every stage catches its own
exceptions; `save_file` catches its own exceptions; the outer
`try`/`except` of `__main__` only logs.  No path calls `sys.exit`, so the
exit status (second component) is always `0`. -/
def cleaningRun (input : Option Dataset) : Option Dataset × Nat :=
  match input with
  | none => (none, 0)
  | some d => (some (cleaningPipeline d), 0)

/-! ## The split run (`data_preparation.py`) -/

/-- Modelled from the spec: one step of a linear congruential generator
(glibc constants), driving the seed-determined permutation of §4.5; the
actual generator lives inside the external sklearn library. -/
def lcgNext (s : Nat) : Nat :=
  (s * 1103515245 + 12345) % 2147483648

/-- Modelled from the spec: fuel-indexed seeded shuffle realising §4.5's
uniform permutation — at each step the generator selects an index of the
remaining rows; the selected row is emitted and removed. -/
def shuffleGo (fuel seed : Nat) : List α → List α
  | [] => []
  | x :: xs =>
      match fuel with
      | 0 => x :: xs
      | fuel' + 1 =>
          let l := x :: xs
          let i := seed % l.length
          l.get ⟨i, Nat.mod_lt _ (by simp [l])⟩ ::
            shuffleGo fuel' (lcgNext seed) (l.eraseIdx i)

/-- Modelled from the spec: a uniform seed-determined permutation of a list
of rows (§4.5). -/
def shuffleRows (seed : Nat) (l : List α) : List α :=
  shuffleGo l.length seed l

/-- Modelled from the spec: the repository delegates the actual split to the
external library routine `sklearn.model_selection.train_test_split`, whose
code is not part of this repository.  Per spec §4.5 the split performs a
uniform random permutation of the rows seeded by `random_state` and assigns
the first `round(test_size * n)` permuted rows to `test` and the remainder
to `train`; the permutation is realised here by a seeded
selection shuffle.  Returns `(train, test)` as the source does. -/
def train_test_split (data : List α) (test_size : ℚ) (random_state : Nat) :
    List α × List α :=
  let n := data.length
  let k := (round (test_size * (n : ℚ))).toNat
  let s := shuffleRows random_state data
  (s.drop k, s.take k)

/-- `split_data` of `data_preparation.py`: delegates to `train_test_split`;
any error raised there (spec §4.5: invalid fraction) is caught and the
script exits with status 1 — modelled as `.error 1`. -/
def split_data (data : List α) (test_size : ℚ) (random_state : Nat) :
    Except Nat (List α × List α) :=
  if 0 < test_size ∧ test_size < 1 then
    Except.ok (train_test_split data test_size random_state)
  else Except.error 1

/-- The `Data_Preparation` section of the YAML parameters file: each key
optionally present. -/
structure PrepSection where
  test_size : Option ℚ
  random_state : Option Int
deriving DecidableEq, Repr

/-- A parsed YAML parameters file: a mapping from section names to
sections. -/
abbrev ParamsFile := List (String × PrepSection)

/-- The state of the configuration resource on disk. -/
inductive ConfigResource where
  | missing
  | unparseable
  | parsed (f : ParamsFile)

/-- `read_params` of `data_preparation.py`: a missing file exits with status
1; a YAML parse error exits with status 1; otherwise
`params_file.get("Data_Preparation", {})` with per-key defaults
`test_size = 0.2`, `random_state = 42`. -/
def read_params : ConfigResource → Except Nat (ℚ × Int)
  | ConfigResource.missing => Except.error 1
  | ConfigResource.unparseable => Except.error 1
  | ConfigResource.parsed f =>
      let parameters := (f.lookup "Data_Preparation").getD ⟨none, none⟩
      Except.ok (parameters.test_size.getD (1 / 5), parameters.random_state.getD 42)

/-! ## Derived predicates and concrete example frames -/

/-- A column as left behind by a successful `astype(float)`: dtype `float64`
and no string cell. -/
def floatClean (c : Col) : Prop :=
  c.dtype = Dtype.floatD ∧
    ∀ v ∈ c.vals, v = Value.vnan ∨ ∃ q, v = Value.vfloat q

/-- The per-cell preservation relation for claim C10: same dtype and length,
and every cell that is not the literal string `"0"` is untouched. -/
def keep0 (c c' : Col) : Prop :=
  c'.dtype = c.dtype ∧ c'.vals.length = c.vals.length ∧
    ∀ i (h1 : i < c.vals.length) (h2 : i < c'.vals.length),
      c.vals.get ⟨i, h1⟩ ≠ Value.vstr "0" →
        c'.vals.get ⟨i, h2⟩ = c.vals.get ⟨i, h1⟩

/-- A concrete raw frame whose `price` column holds the currency string of
testable property 2 of the spec. -/
def exFrameDollar : Dataset :=
  [("date", ⟨Dtype.floatD, [Value.vfloat 1]⟩),
   ("price", ⟨Dtype.objectD, [Value.vstr "$12,345", Value.vstr "na"]⟩),
   ("mileage", ⟨Dtype.objectD, [Value.vstr "1"]⟩)]

/-- A concrete raw frame on which the cleaning pipeline is not idempotent:
comma removal turns `"n,a"` into the string `"na"`, `astype(float)` then
raises, the categorical stage replaces that `"na"` with `NaN`, and a second
numerical run parses the leftover `"5"`. -/
def exFrameNonIdem : Dataset :=
  [("date", ⟨Dtype.floatD, [Value.vfloat 0]⟩),
   ("price", ⟨Dtype.objectD, [Value.vstr "n,a", Value.vstr "5"]⟩)]

/-- A concrete raw frame on which the numerical stage succeeds without an
exception. -/
def exFrameClean : Dataset :=
  [("date", ⟨Dtype.objectD, [Value.vstr "na"]⟩),
   ("price", ⟨Dtype.objectD, [Value.vstr "1,000"]⟩),
   ("mileage", ⟨Dtype.objectD, [Value.vstr "na"]⟩),
   ("transmission", ⟨Dtype.objectD, [Value.vstr "0", Value.vstr "na"]⟩)]

/-- A concrete frame with two categorical columns for the sentinel-asymmetry
witness. -/
def exFrameCat : Dataset :=
  [("transmission", ⟨Dtype.objectD, [Value.vstr "0", Value.vstr "na", Value.vstr "Manual"]⟩),
   ("fuel", ⟨Dtype.objectD, [Value.vstr "0", Value.vstr "na", Value.vstr "Petrol"]⟩)]

/-- A concrete frame carrying an `Unnamed: 0` index column. -/
def exFrameUnnamed : Dataset :=
  [("Unnamed: 0", ⟨Dtype.floatD, [Value.vfloat 0]⟩),
   ("date", ⟨Dtype.objectD, [Value.vstr "2015"]⟩),
   ("price", ⟨Dtype.objectD, [Value.vstr "na"]⟩)]

/-- A concrete parsed parameters file whose `Data_Preparation` section lacks
the `test_size` key. -/
def exParams : ParamsFile :=
  [("Data_Preparation", ⟨none, some 7⟩)]

/-! ## Basic lemmas about the frame operations -/

theorem getCol_setCol_self (d : Dataset) (name : String) (c : Col) :
    getCol (setCol d name c) name = some c := by
  induction d with
  | nil => simp [setCol, getCol]
  | cons p rest ih =>
      obtain ⟨n, c0⟩ := p
      by_cases h : n = name <;> simp [setCol, getCol, h, ih]

theorem getCol_setCol_ne (d : Dataset) {name n' : String} (c : Col)
    (h : n' ≠ name) : getCol (setCol d name c) n' = getCol d n' := by
  induction d with
  | nil => simp [setCol, getCol, Ne.symm h]
  | cons p rest ih =>
      obtain ⟨n, c0⟩ := p
      by_cases hn : n = name
      · subst hn
        simp [setCol, getCol, Ne.symm h]
      · simp [setCol, getCol, hn]
        by_cases hn' : n = n' <;> simp [hn', ih]

theorem setCol_self {d : Dataset} {name : String} {c : Col}
    (h : getCol d name = some c) : setCol d name c = d := by
  induction d with
  | nil => simp [getCol] at h
  | cons p rest ih =>
      obtain ⟨n, c0⟩ := p
      by_cases hn : n = name
      · subst hn
        simp [getCol] at h
        simp [setCol, h]
      · simp [getCol, hn] at h
        simp [setCol, hn, ih h]

theorem colNames_setCol {d : Dataset} {name : String} (c : Col)
    (h : hasCol d name = true) : colNames (setCol d name c) = colNames d := by
  induction d with
  | nil => simp [hasCol, getCol] at h
  | cons p rest ih =>
      obtain ⟨n, c0⟩ := p
      by_cases hn : n = name
      · simp [setCol, hn, colNames]
      · simp [hasCol, getCol, hn] at h
        simp [setCol, hn, colNames] at ih ⊢
        exact ih h

theorem hasCol_setCol {d : Dataset} {name : String} (c : Col) (n' : String)
    (h : hasCol d name = true) :
    hasCol (setCol d name c) n' = hasCol d n' := by
  by_cases hn : n' = name
  · subst hn
    simp only [hasCol, getCol_setCol_self, Option.isSome_some]
    exact h.symm
  · simp [hasCol, getCol_setCol_ne d c hn]

theorem hasCol_iff_mem {d : Dataset} {n : String} :
    hasCol d n = true ↔ n ∈ colNames d := by
  induction d with
  | nil => simp [hasCol, getCol, colNames]
  | cons p rest ih =>
      obtain ⟨m, c⟩ := p
      by_cases hm : m = n
      · subst hm
        simp [hasCol, getCol, colNames]
      · have h1 : hasCol ((m, c) :: rest) n = hasCol rest n := by
          simp [hasCol, getCol, hm]
        rw [h1, ih]
        simp [colNames, Ne.symm hm]

/-! ## Lemmas about the categorical stage -/

theorem catRule_idem (column : String) (v : Value) :
    catRule column (catRule column v) = catRule column v := by
  by_cases h : column = "transmission" <;>
    simp only [catRule, h, if_true, if_false] <;>
    split <;> simp_all

theorem colRule_idem (column : String) (c : Col) :
    colRule column (colRule column c) = colRule column c := by
  simp only [colRule, List.map_map]
  refine congrArg _ (List.map_congr_left ?_)
  intro v _
  exact catRule_idem column v

theorem cleanCatBody_spec (cats : List String) (d : Dataset)
    (h : ∀ c ∈ cats, hasCol d c = true) :
    ∃ r, cleanCatBody d cats = Except.ok r ∧
      ∀ n, getCol r n =
        if n ∈ cats then (getCol d n).map (colRule n) else getCol d n := by
  induction cats generalizing d with
  | nil => exact ⟨d, rfl, by simp⟩
  | cons c rest ih =>
      have hc : hasCol d c = true := h c (by simp)
      obtain ⟨col, hcol⟩ : ∃ col, getCol d c = some col := by
        cases hg : getCol d c
        · rw [hasCol, hg] at hc
          simp at hc
        · exact ⟨_, rfl⟩
      have hrest : ∀ x ∈ rest, hasCol (setCol d c (colRule c col)) x = true := by
        intro x hx
        rw [hasCol_setCol _ x hc]
        exact h x (by simp [hx])
      obtain ⟨r, hr, hget⟩ := ih (setCol d c (colRule c col)) hrest
      refine ⟨r, by simp [cleanCatBody, hcol, hr], ?_⟩
      intro n
      rw [hget n]
      by_cases hn : n = c
      · subst hn
        rw [getCol_setCol_self, hcol]
        by_cases hmem : n ∈ rest <;>
          simp [hmem, colRule_idem]
      · rw [getCol_setCol_ne d _ hn]
        by_cases hmem : n ∈ rest <;> simp [hmem, hn]

theorem colNames_cleanCatBody (cats : List String) (d : Dataset) :
    colNames (runCatch (cleanCatBody d cats)) = colNames d := by
  induction cats generalizing d with
  | nil => rfl
  | cons c rest ih =>
      cases hg : getCol d c with
      | none => simp [cleanCatBody, hg, runCatch]
      | some col =>
          have hc : hasCol d c = true := by simp [hasCol, hg]
          simp only [cleanCatBody, hg]
          rw [ih, colNames_setCol _ hc]

theorem cleanCatBody_id_of_fixed (cats : List String) (d : Dataset)
    (h : ∀ c ∈ cats, ∃ col, getCol d c = some col ∧ colRule c col = col) :
    cleanCatBody d cats = Except.ok d := by
  induction cats generalizing d with
  | nil => rfl
  | cons c rest ih =>
      obtain ⟨col, hcol, hfix⟩ := h c (by simp)
      have hset : setCol d c (colRule c col) = d := by
        rw [hfix]
        exact setCol_self hcol
      simp only [cleanCatBody, hcol, hset]
      exact ih d (fun x hx => h x (by simp [hx]))

theorem keep0_refl (c : Col) : keep0 c c :=
  ⟨rfl, rfl, fun _ _ _ _ => rfl⟩

theorem keep0_colRule_transmission {c c' : Col} (h : keep0 c c') :
    keep0 c (colRule "transmission" c') := by
  obtain ⟨hd, hl, hv⟩ := h
  refine ⟨hd, by simpa [colRule] using hl, ?_⟩
  intro i h1 h2 hne
  simp only [colRule, List.length_map] at h2
  have hv' := hv i h1 h2 hne
  simp only [colRule, List.get_eq_getElem, List.getElem_map]
  rw [List.get_eq_getElem] at hv'
  rw [hv']
  rw [List.get_eq_getElem] at hne ⊢
  simp [catRule, hne]

theorem cleanCat_keep0 (cats : List String) (d : Dataset) {col colc : Col}
    (hg : getCol d "transmission" = some colc) (hk : keep0 col colc) :
    ∃ col', getCol (runCatch (cleanCatBody d cats)) "transmission" = some col' ∧
      keep0 col col' := by
  induction cats generalizing d colc with
  | nil => exact ⟨colc, hg, hk⟩
  | cons c rest ih =>
      cases hgc : getCol d c with
      | none =>
          simp only [cleanCatBody, hgc, runCatch]
          exact ⟨colc, hg, hk⟩
      | some cc =>
          simp only [cleanCatBody, hgc]
          by_cases hc : c = "transmission"
          · subst hc
            rw [hg] at hgc
            obtain rfl : colc = cc := by injection hgc
            refine ih _ ?_ (keep0_colRule_transmission hk)
            rw [getCol_setCol_self]
          · refine ih _ ?_ hk
            rw [getCol_setCol_ne d _ (fun hh => hc hh.symm)]
            exact hg

/-! ## Lemmas about the numerical stage -/

theorem optMap_mem {f : Value → Option Value} :
    ∀ {l l' : List Value}, optMap f l = some l' →
      ∀ b ∈ l', ∃ a ∈ l, f a = some b := by
  intro l
  induction l with
  | nil =>
      intro l' h b hb
      simp only [optMap, Option.some.injEq] at h
      subst h
      simp at hb
  | cons v vs ih =>
      intro l' h b hb
      simp only [optMap] at h
      cases hf : f v with
      | none => rw [hf] at h; exact absurd h (by simp)
      | some w =>
          rw [hf] at h
          cases ho : optMap f vs with
          | none => rw [ho] at h; exact absurd h (by simp)
          | some ws =>
              rw [ho] at h
              simp only [Option.some.injEq] at h
              subst h
              rcases List.mem_cons.mp hb with hb | hb
              · exact ⟨v, by simp, hb ▸ hf⟩
              · obtain ⟨a, ha, hfa⟩ := ih ho b hb
                exact ⟨a, by simp [ha], hfa⟩

theorem parseValFloat_shape {a b : Value} (h : parseValFloat a = some b) :
    b = Value.vnan ∨ ∃ q, b = Value.vfloat q := by
  cases a <;> simp [parseValFloat] at h
  · obtain ⟨q, _, hq⟩ := h
    exact Or.inr ⟨q, hq.symm⟩
  · exact Or.inr ⟨_, h.symm⟩
  · exact Or.inl h.symm

theorem astypeFloat_floatClean {c c' : Col} (h : astypeFloat c = some c') :
    floatClean c' := by
  simp only [astypeFloat, Option.map_eq_some'] at h
  obtain ⟨vs, hvs, rfl⟩ := h
  refine ⟨rfl, ?_⟩
  intro v hv
  obtain ⟨a, _, hfa⟩ := optMap_mem hvs v hv
  exact parseValFloat_shape hfa

theorem map_replace_na_id {vals : List Value}
    (hv : ∀ v ∈ vals, v = Value.vnan ∨ ∃ q, v = Value.vfloat q) :
    vals.map (fun v => if v = Value.vstr "na" then Value.vnan else v) = vals := by
  induction vals with
  | nil => rfl
  | cons v vs ih =>
      have h1 : (if v = Value.vstr "na" then Value.vnan else v) = v := by
        rcases hv v (by simp) with rfl | ⟨q, rfl⟩ <;> simp
      simp only [List.map_cons, h1, List.cons.injEq, true_and]
      exact ih (fun w hw => hv w (by simp [hw]))

theorem seriesReplace_na_of_floatClean {c : Col} (h : floatClean c) :
    seriesReplace (Value.vstr "na") Value.vnan c = c := by
  obtain ⟨_, hv⟩ := h
  cases c with
  | mk dt vals =>
      simp only [seriesReplace, Col.mk.injEq, true_and]
      exact map_replace_na_id hv

theorem astypeFloat_of_floatClean {c : Col} (h : floatClean c) :
    astypeFloat c = some c := by
  obtain ⟨hd, hv⟩ := h
  cases c with
  | mk dt vals =>
      simp only at hd
      subst hd
      simp only [astypeFloat]
      have : optMap parseValFloat vals = some vals := by
        induction vals with
        | nil => rfl
        | cons v vs ih =>
            have hvv := hv v (by simp)
            have hrest : optMap parseValFloat vs = some vs :=
              ih (fun w hw => hv w (by simp [hw]))
            rcases hvv with rfl | ⟨q, rfl⟩ <;>
              simp [optMap, parseValFloat, hrest]
      simp [this]

theorem strReplaceWith_of_floatD {c : Col} (f : String → String)
    (h : c.dtype = Dtype.floatD) : strReplaceWith f c = none := by
  simp [strReplaceWith, strAccessorOk, h]

theorem hasCol_of_getCol {d : Dataset} {n : String} {c : Col}
    (h : getCol d n = some c) : hasCol d n = true := by
  simp [hasCol, h]

theorem colNames_setCol_chain {d : Dataset} {name : String} {c c' : Col} :
    colNames (setCol (setCol d name c) name c') = colNames (setCol d name c) := by
  refine colNames_setCol _ ?_
  simp [hasCol, getCol_setCol_self]

theorem cleanNumCols_run_getCol_ne :
    ∀ (cols : List String) (d : Dataset) (n : String), n ∉ cols →
      getCol (runCatch (cleanNumCols d cols)) n = getCol d n := by
  intro cols
  induction cols with
  | nil => intro d n _; rfl
  | cons col rest ih =>
      intro d n hn
      have hncol : n ≠ col := fun h => hn (by simp [h])
      have hnrest : n ∉ rest := fun h => hn (by simp [h])
      cases hg : getCol d col with
      | none => simp [cleanNumCols, hg, runCatch]
      | some c =>
          cases hs1 : strReplaceWith commaStrip (seriesReplace (Value.vstr "na") Value.vnan c) with
          | none =>
              simp only [cleanNumCols, hg, hs1, runCatch]
              exact getCol_setCol_ne d _ hncol
          | some c2 =>
              cases hs2 : strReplaceWith dollarAnchorSub c2 with
              | none =>
                  simp only [cleanNumCols, hg, hs1, hs2, runCatch]
                  rw [getCol_setCol_ne _ _ hncol, getCol_setCol_ne d _ hncol]
              | some c3 =>
                  cases hs3 : astypeFloat c3 with
                  | none =>
                      simp only [cleanNumCols, hg, hs1, hs2, hs3, runCatch]
                      rw [getCol_setCol_ne _ _ hncol, getCol_setCol_ne _ _ hncol,
                        getCol_setCol_ne d _ hncol]
                  | some c4 =>
                      simp only [cleanNumCols, hg, hs1, hs2, hs3]
                      rw [ih _ n hnrest, getCol_setCol_ne _ _ hncol,
                        getCol_setCol_ne _ _ hncol, getCol_setCol_ne _ _ hncol,
                        getCol_setCol_ne d _ hncol]

theorem cleanNumCols_run_names :
    ∀ (cols : List String) (d : Dataset),
      colNames (runCatch (cleanNumCols d cols)) = colNames d := by
  intro cols
  induction cols with
  | nil => intro d; rfl
  | cons col rest ih =>
      intro d
      cases hg : getCol d col with
      | none => simp [cleanNumCols, hg, runCatch]
      | some c =>
          have hc : hasCol d col = true := hasCol_of_getCol hg
          have h1 : colNames (setCol d col (seriesReplace (Value.vstr "na") Value.vnan c))
              = colNames d := colNames_setCol _ hc
          cases hs1 : strReplaceWith commaStrip (seriesReplace (Value.vstr "na") Value.vnan c) with
          | none =>
              simp only [cleanNumCols, hg, hs1, runCatch]
              exact h1
          | some c2 =>
              cases hs2 : strReplaceWith dollarAnchorSub c2 with
              | none =>
                  simp only [cleanNumCols, hg, hs1, hs2, runCatch]
                  rw [colNames_setCol_chain, h1]
              | some c3 =>
                  cases hs3 : astypeFloat c3 with
                  | none =>
                      simp only [cleanNumCols, hg, hs1, hs2, hs3, runCatch]
                      rw [colNames_setCol_chain, colNames_setCol_chain, h1]
                  | some c4 =>
                      simp only [cleanNumCols, hg, hs1, hs2, hs3]
                      rw [ih, colNames_setCol_chain, colNames_setCol_chain,
                        colNames_setCol_chain, h1]

theorem cleanNumCols_ok_spec :
    ∀ (cols : List String) (d r : Dataset), cleanNumCols d cols = Except.ok r →
      (∀ n, n ∉ cols → getCol r n = getCol d n) ∧
      (∀ n ∈ cols, ∃ c', getCol r n = some c' ∧ floatClean c') ∧
      colNames r = colNames d := by
  intro cols
  induction cols with
  | nil =>
      intro d r h
      obtain rfl : d = r := by simpa [cleanNumCols] using h
      exact ⟨fun _ _ => rfl, by simp, rfl⟩
  | cons col rest ih =>
      intro d r h
      cases hg : getCol d col with
      | none => simp [cleanNumCols, hg] at h
      | some c =>
          cases hs1 : strReplaceWith commaStrip (seriesReplace (Value.vstr "na") Value.vnan c) with
          | none => simp [cleanNumCols, hg, hs1] at h
          | some c2 =>
              cases hs2 : strReplaceWith dollarAnchorSub c2 with
              | none => simp [cleanNumCols, hg, hs1, hs2] at h
              | some c3 =>
                  cases hs3 : astypeFloat c3 with
                  | none => simp [cleanNumCols, hg, hs1, hs2, hs3] at h
                  | some c4 =>
                      simp only [cleanNumCols, hg, hs1, hs2, hs3] at h
                      obtain ⟨hne, hin, hnames⟩ := ih _ r h
                      have hd4ne : ∀ n, n ≠ col →
                          getCol (setCol (setCol (setCol (setCol d col
                            (seriesReplace (Value.vstr "na") Value.vnan c)) col c2) col c3) col c4) n
                          = getCol d n := by
                        intro n hn
                        rw [getCol_setCol_ne _ _ hn, getCol_setCol_ne _ _ hn,
                          getCol_setCol_ne _ _ hn, getCol_setCol_ne d _ hn]
                      refine ⟨?_, ?_, ?_⟩
                      · intro n hn
                        have hncol : n ≠ col := fun hh => hn (by simp [hh])
                        have hnrest : n ∉ rest := fun hh => hn (by simp [hh])
                        rw [hne n hnrest, hd4ne n hncol]
                      · intro n hn
                        by_cases hr : n ∈ rest
                        · exact hin n hr
                        · have hcol : n = col := by
                            rcases List.mem_cons.mp hn with hh | hh
                            · exact hh
                            · exact absurd hh hr
                          subst hcol
                          refine ⟨c4, ?_, astypeFloat_floatClean hs3⟩
                          rw [hne n hr, getCol_setCol_self]
                      · rw [hnames, colNames_setCol_chain, colNames_setCol_chain,
                          colNames_setCol_chain, colNames_setCol _ (hasCol_of_getCol hg)]

theorem getCol_filter_name_ne {d : Dataset} {x n : String} (h : n ≠ x) :
    getCol (d.filter (fun p => p.1 ≠ x)) n = getCol d n := by
  induction d with
  | nil => rfl
  | cons p rest ih =>
      obtain ⟨m, c⟩ := p
      rw [List.filter_cons]
      by_cases hm : m = x
      · rw [if_neg (by simp [hm]), ih]
        have hmn : ¬ (m = n) := fun hh => h (hh ▸ hm)
        simp [getCol, hmn]
      · rw [if_pos (by simp [hm])]
        show (if m = n then some c else _) = (if m = n then some c else _)
        by_cases hn : m = n
        · rw [if_pos hn, if_pos hn]
        · rw [if_neg hn, if_neg hn]
          exact ih

theorem getCol_filter_name_self (d : Dataset) (x : String) :
    getCol (d.filter (fun p => p.1 ≠ x)) x = none := by
  induction d with
  | nil => rfl
  | cons p rest ih =>
      obtain ⟨m, c⟩ := p
      rw [List.filter_cons]
      by_cases hm : m = x
      · rw [if_neg (by simp [hm])]
        exact ih
      · rw [if_pos (by simp [hm])]
        show (if m = x then some c else _) = none
        rw [if_neg hm]
        exact ih

theorem getCol_dropUnnamedStep_ne {d : Dataset} {n : String}
    (h : n ≠ "Unnamed: 0") : getCol (dropUnnamedStep d) n = getCol d n := by
  unfold dropUnnamedStep
  split
  · exact getCol_filter_name_ne h
  · rfl

theorem hasCol_dropUnnamedStep_unnamed (d : Dataset) :
    hasCol (dropUnnamedStep d) "Unnamed: 0" = false := by
  unfold dropUnnamedStep
  split
  · rw [hasCol, getCol_filter_name_self]
    rfl
  · rename_i hfalse
    revert hfalse
    cases hasCol d "Unnamed: 0" <;> simp

theorem colNames_filter_name (d : Dataset) (x : String) :
    colNames (d.filter (fun p => p.1 ≠ x))
      = (colNames d).filter (fun n => n ≠ x) := by
  induction d with
  | nil => rfl
  | cons p rest ih =>
      obtain ⟨m, c⟩ := p
      show colNames (List.filter _ ((m, c) :: rest))
        = List.filter _ (m :: colNames rest)
      rw [List.filter_cons, List.filter_cons]
      by_cases hm : m = x
      · rw [if_neg (by simp [hm]), if_neg (by simp [hm]), ih]
      · rw [if_pos (by simp [hm]), if_pos (by simp [hm])]
        show m :: colNames (List.filter _ rest) = _
        rw [ih]

theorem colNames_dropUnnamedStep (d : Dataset) :
    colNames (dropUnnamedStep d) = (colNames d).filter (fun n => n ≠ "Unnamed: 0") := by
  unfold dropUnnamedStep
  split
  · exact colNames_filter_name d _
  · rename_i hfalse
    have hmem : "Unnamed: 0" ∉ colNames d := by
      intro hmem
      exact hfalse (hasCol_iff_mem.mpr hmem)
    symm
    refine List.filter_eq_self.mpr ?_
    intro n hn
    simp only [ne_eq, decide_eq_true_eq]
    intro hh
    exact hmem (hh ▸ hn)

/-- The state-description of `data_cleaning_numerical` for columns it never
touches: any column other than `Unnamed: 0`, `date`, `price`, `mileage` is
returned exactly as it came in, on every control path (success or caught
exception). -/
theorem cleanNum_getCol_other (d : Dataset) (n : String)
    (h0 : n ≠ "Unnamed: 0") (h1 : n ≠ "date") (h2 : n ≠ "price")
    (h3 : n ≠ "mileage") :
    getCol (data_cleaning_numerical d) n = getCol d n := by
  have hdrop := getCol_dropUnnamedStep_ne (d := d) h0
  have hlist : n ∉ ["price", "mileage"] := by simp [h2, h3]
  cases hg : getCol (dropUnnamedStep d) "date" with
  | none =>
      simp only [data_cleaning_numerical, cleanNumBody, hg, runCatch]
      exact hdrop
  | some c =>
      cases ha : astypeFloat (seriesReplace (Value.vstr "na") Value.vnan c) with
      | none =>
          simp only [data_cleaning_numerical, cleanNumBody, hg, ha, runCatch]
          exact hdrop
      | some c' =>
          simp only [data_cleaning_numerical, cleanNumBody, hg, ha]
          rw [cleanNumCols_run_getCol_ne _ _ n hlist, getCol_setCol_ne _ _ h1, hdrop]

theorem colNames_cleanNum (d : Dataset) :
    colNames (data_cleaning_numerical d)
      = (colNames d).filter (fun n => n ≠ "Unnamed: 0") := by
  rw [← colNames_dropUnnamedStep]
  cases hg : getCol (dropUnnamedStep d) "date" with
  | none => simp [data_cleaning_numerical, cleanNumBody, hg, runCatch]
  | some c =>
      cases ha : astypeFloat (seriesReplace (Value.vstr "na") Value.vnan c) with
      | none => simp [data_cleaning_numerical, cleanNumBody, hg, ha, runCatch]
      | some c' =>
          simp only [data_cleaning_numerical, cleanNumBody, hg, ha]
          rw [cleanNumCols_run_names, colNames_setCol _ (hasCol_of_getCol hg)]

theorem hasCol_cleanNum_unnamed (d : Dataset) :
    hasCol (data_cleaning_numerical d) "Unnamed: 0" = false := by
  by_contra h
  have h' : hasCol (data_cleaning_numerical d) "Unnamed: 0" = true := by
    revert h
    cases hasCol (data_cleaning_numerical d) "Unnamed: 0" <;> simp
  have hmem := hasCol_iff_mem.mp h'
  rw [colNames_cleanNum] at hmem
  have := List.of_mem_filter hmem
  simp at this

/-- The success-case description of `data_cleaning_numerical`: when the body
raises no exception, the three numeric columns come out `float64` with no
string cell, and `Unnamed: 0` is gone. -/
theorem cleanNumBody_ok_spec {d r : Dataset} (h : cleanNumBody d = Except.ok r) :
    (∃ cd, getCol r "date" = some cd ∧ floatClean cd) ∧
    (∃ cp, getCol r "price" = some cp ∧ floatClean cp) ∧
    (∃ cm, getCol r "mileage" = some cm ∧ floatClean cm) ∧
    hasCol r "Unnamed: 0" = false := by
  have hrun : data_cleaning_numerical d = r := by
    simp [data_cleaning_numerical, h, runCatch]
  cases hg : getCol (dropUnnamedStep d) "date" with
  | none => simp [cleanNumBody, hg] at h
  | some c =>
      cases ha : astypeFloat (seriesReplace (Value.vstr "na") Value.vnan c) with
      | none => simp [cleanNumBody, hg, ha] at h
      | some c' =>
          simp only [cleanNumBody, hg, ha] at h
          obtain ⟨hne, hin, _⟩ := cleanNumCols_ok_spec _ _ _ h
          refine ⟨⟨c', ?_, astypeFloat_floatClean ha⟩, ?_, ?_, ?_⟩
          · rw [hne "date" (by simp), getCol_setCol_self]
          · simpa using hin "price" (by simp)
          · simpa using hin "mileage" (by simp)
          · rw [← hrun]
            exact hasCol_cleanNum_unnamed d

/-- A frame whose `date` and `price` columns are already `float64` and free
of string cells (and with no `Unnamed: 0` column) passes through
`data_cleaning_numerical` unchanged: the second run raises
`AttributeError` at `price`'s `.str` accessor and the caught exception
returns the frame as-is. -/
theorem cleanNum_id_of_clean {d : Dataset}
    (hU : hasCol d "Unnamed: 0" = false)
    (hdate : ∃ cd, getCol d "date" = some cd ∧ floatClean cd)
    (hprice : ∃ cp, getCol d "price" = some cp ∧ floatClean cp) :
    data_cleaning_numerical d = d := by
  obtain ⟨cd, hcd, hcdclean⟩ := hdate
  obtain ⟨cp, hcp, hcpclean⟩ := hprice
  have hdropid : dropUnnamedStep d = d := by
    unfold dropUnnamedStep
    simp [hU]
  have hrepp := seriesReplace_na_of_floatClean hcpclean
  have hstr := strReplaceWith_of_floatD commaStrip hcpclean.1
  have hcols : cleanNumCols d ["price", "mileage"] = Except.error d := by
    simp only [cleanNumCols, hcp, hrepp, hstr, setCol_self hcp]
  have hbody : cleanNumBody d = Except.error d := by
    simp only [cleanNumBody, hdropid, hcd,
      seriesReplace_na_of_floatClean hcdclean,
      astypeFloat_of_floatClean hcdclean, setCol_self hcd, hcols]
  simp [data_cleaning_numerical, hbody, runCatch]

/-! ## Lemmas about the split stage -/

theorem get_cons_eraseIdx_perm {α : Type _} (l : List α) (i : Nat)
    (h : i < l.length) : (l.get ⟨i, h⟩ :: l.eraseIdx i).Perm l := by
  have h1 : l.eraseIdx i = l.take i ++ l.drop (i + 1) :=
    List.eraseIdx_eq_take_drop_succ l i
  have h2 : l[i] :: l.drop (i + 1) = l.drop i := List.getElem_cons_drop l i h
  rw [List.get_eq_getElem, h1]
  refine List.Perm.trans (List.perm_middle).symm ?_
  rw [h2, List.take_append_drop]

theorem shuffleGo_perm {α : Type _} :
    ∀ (fuel seed : Nat) (l : List α), (shuffleGo fuel seed l).Perm l := by
  intro fuel
  induction fuel with
  | zero =>
      intro seed l
      cases l <;> simp [shuffleGo]
  | succ n ih =>
      intro seed l
      cases l with
      | nil => simp [shuffleGo]
      | cons x xs =>
          simp only [shuffleGo]
          refine List.Perm.trans (List.Perm.cons _ (ih _ _)) ?_
          exact get_cons_eraseIdx_perm (x :: xs) _ _

theorem shuffleRows_perm {α : Type _} (seed : Nat) (l : List α) :
    (shuffleRows seed l).Perm l :=
  shuffleGo_perm l.length seed l

theorem shuffleRows_length {α : Type _} (seed : Nat) (l : List α) :
    (shuffleRows seed l).length = l.length :=
  (shuffleRows_perm seed l).length_eq

theorem round_mul_le (f : ℚ) (n : ℕ) (hf : f < 1) :
    round (f * (n : ℚ)) ≤ (n : ℤ) := by
  rw [round_eq, Int.floor_le_iff]
  have h1 : f * (n : ℚ) ≤ (n : ℚ) := by
    calc f * (n : ℚ) ≤ 1 * (n : ℚ) := by
          exact mul_le_mul_of_nonneg_right (le_of_lt hf) (by positivity)
      _ = (n : ℚ) := one_mul _
  push_cast
  linarith

/-! ## Claim theorems -/

/-- C1: the claim says a `price`/`mileage` value `"$12,345"` is transformed
to the float `12345.0`.  The code does not do this: `str.replace("$", "",
regex=True)` treats `$` as the end-of-string regex anchor, so the dollar
sign survives, `astype(float)` raises, and the caught exception returns the
frame with `price` still holding the string `"$12345"` (comma removed,
dollar kept, never parsed).  The `"na"` cell does become the missing
marker.  This theorem evaluates the embedded code at the failing input. -/
theorem C1_dollar_not_removed :
    getCol (data_cleaning_numerical exFrameDollar) "price"
      = some ⟨Dtype.objectD, [Value.vstr "$12345", Value.vnan]⟩ ∧
    getCol (data_cleaning_numerical exFrameDollar) "price"
      ≠ some ⟨Dtype.floatD, [Value.vfloat 12345, Value.vnan]⟩ := by
  constructor
  · rfl
  · decide

/-- C2: the cleaning run never exits with a nonzero status, for every input
(including an unreadable one, modelled as `none`); and each cleaning-stage
body that raises has its exception caught, the stage returning the
partially-transformed frame carried by the exception point. -/
theorem C2_cleaning_fail_soft :
    (∀ input, (cleaningRun input).2 = 0) ∧
    (∀ d p, cleanNumBody d = Except.error p → data_cleaning_numerical d = p) ∧
    (∀ d cats p, cleanCatBody d cats = Except.error p →
      data_clean_categorical d cats = p) := by
  refine ⟨?_, ?_, ?_⟩
  · intro input
    cases input <;> rfl
  · intro d p h
    simp [data_cleaning_numerical, h, runCatch]
  · intro d cats p h
    simp [data_clean_categorical, h, runCatch]

/-- Witness for C2 at concrete inputs: an empty frame makes the numerical
body raise (`KeyError` on `date`), yet the stage returns it and the run
exits `0`. -/
theorem C2_cleaning_fail_soft_witness :
    (cleaningRun (some [])).2 = 0 ∧ data_cleaning_numerical [] = [] :=
  ⟨C2_cleaning_fail_soft.1 (some []), C2_cleaning_fail_soft.2.1 [] [] rfl⟩

/-- C9: the parameter reader's policy — a missing or unparseable
configuration resource exits with status 1; a parsed file with a missing
`Data_Preparation` section, or with missing `test_size` / `random_state`
keys, falls back to the defaults `0.2` and `42`. -/
theorem C9_read_params_policy :
    read_params ConfigResource.missing = Except.error 1 ∧
    read_params ConfigResource.unparseable = Except.error 1 ∧
    (∀ f : ParamsFile, f.lookup "Data_Preparation" = none →
      read_params (ConfigResource.parsed f) = Except.ok (1 / 5, 42)) ∧
    (∀ (f : ParamsFile) (s : PrepSection), f.lookup "Data_Preparation" = some s →
      s.test_size = none →
      ∃ r, read_params (ConfigResource.parsed f) = Except.ok (1 / 5, r)) ∧
    (∀ (f : ParamsFile) (s : PrepSection), f.lookup "Data_Preparation" = some s →
      s.random_state = none →
      ∃ t, read_params (ConfigResource.parsed f) = Except.ok (t, 42)) := by
  refine ⟨rfl, rfl, ?_, ?_, ?_⟩
  · intro f hf
    simp [read_params, hf]
  · intro f s hf ht
    exact ⟨s.random_state.getD 42, by simp [read_params, hf, ht]⟩
  · intro f s hf hr
    exact ⟨s.test_size.getD (1 / 5), by simp [read_params, hf, hr]⟩

/-- Witness for C9 at a concrete parsed file whose section lacks
`test_size`: the default `0.2` is supplied. -/
theorem C9_read_params_policy_witness :
    exParams.lookup "Data_Preparation" = some ⟨none, some 7⟩ ∧
    ∃ r, read_params (ConfigResource.parsed exParams) = Except.ok (1 / 5, r) :=
  ⟨by decide, C9_read_params_policy.2.2.2.1 exParams ⟨none, some 7⟩ (by decide) rfl⟩

/-- C5: the split is a deterministic function of the frame, the fraction and
the seed — two invocations with identical inputs return identical
train/test partitions.  (The embedded split consumes no state other than
its arguments, mirroring the fact that the code's randomness is fully
determined by `random_state`.) -/
theorem C5_split_deterministic {α : Type} (d d' : List α) (f f' : ℚ)
    (s s' : Nat) (hd : d = d') (hf : f = f') (hs : s = s') :
    split_data d f s = split_data d' f' s' := by
  subst hd
  subst hf
  subst hs
  rfl

/-- Witness for C5 at a concrete invocation pair. -/
theorem C5_split_deterministic_witness :
    split_data [10, 20, 30] (1 / 2) 7 = split_data [10, 20, 30] (1 / 2) 7 :=
  C5_split_deterministic [10, 20, 30] [10, 20, 30] (1 / 2) (1 / 2) 7 7 rfl rfl rfl

/-- C8: the numerical normalizer drops an `Unnamed: 0` column when present
(it is absent from the stage's output on every control path), the removal
step touches no other column, no column is dropped when `Unnamed: 0` is
absent, and the stage's output columns are exactly the input columns minus
`Unnamed: 0`. -/
theorem C8_unnamed_drop (d : Dataset) :
    (hasCol d "Unnamed: 0" = true →
      hasCol (data_cleaning_numerical d) "Unnamed: 0" = false) ∧
    (∀ n, n ≠ "Unnamed: 0" → getCol (dropUnnamedStep d) n = getCol d n) ∧
    (hasCol d "Unnamed: 0" = false → dropUnnamedStep d = d) ∧
    colNames (data_cleaning_numerical d)
      = (colNames d).filter (fun n => n ≠ "Unnamed: 0") := by
  refine ⟨fun _ => hasCol_cleanNum_unnamed d,
    fun n hn => getCol_dropUnnamedStep_ne hn, ?_, colNames_cleanNum d⟩
  intro h
  unfold dropUnnamedStep
  simp [h]

/-- Witness for C8 at a concrete frame carrying `Unnamed: 0`. -/
theorem C8_unnamed_drop_witness :
    hasCol exFrameUnnamed "Unnamed: 0" = true ∧
    hasCol (data_cleaning_numerical exFrameUnnamed) "Unnamed: 0" = false ∧
    getCol (dropUnnamedStep exFrameUnnamed) "date" = getCol exFrameUnnamed "date" :=
  ⟨by decide, (C8_unnamed_drop exFrameUnnamed).1 (by decide),
    (C8_unnamed_drop exFrameUnnamed).2.1 "date" (by decide)⟩

/-- C3: for every frame and every list of categorical columns (columns of
the frame, as produced by the column classifier), the categorical
normalizer turns the literal `"0"` into `"Other"` in `transmission`, and in
every other listed column turns the sentinel `"na"` into the missing marker
while leaving the literal `"0"` (and everything else) unchanged. -/
theorem C3_categorical_sentinels (d : Dataset) (cats : List String)
    (h : ∀ c ∈ cats, hasCol d c = true) :
    ∀ c ∈ cats, ∀ col, getCol d c = some col →
      ∃ col', getCol (data_clean_categorical d cats) c = some col' ∧
        (c = "transmission" →
          col'.vals = col.vals.map (fun v =>
            if v = Value.vstr "0" then Value.vstr "Other" else v)) ∧
        (c ≠ "transmission" →
          col'.vals = col.vals.map (fun v =>
            if v = Value.vstr "na" then Value.vnan else v)) := by
  obtain ⟨r, hr, hget⟩ := cleanCatBody_spec cats d h
  intro c hc col hcol
  have hrun : data_clean_categorical d cats = r := by
    simp [data_clean_categorical, hr, runCatch]
  refine ⟨colRule c col, ?_, ?_, ?_⟩
  · rw [hrun, hget c, if_pos hc, hcol]
    rfl
  · intro htrans
    simp [colRule, catRule, htrans]
  · intro htrans
    simp [colRule, catRule, htrans]

/-- Witness for C3 at a concrete frame: in `transmission` the `"0"` becomes
`"Other"` and the `"na"` survives; in `fuel` the `"0"` survives and the
`"na"` becomes missing. -/
theorem C3_categorical_sentinels_witness :
    ∃ col', getCol (data_clean_categorical exFrameCat ["transmission", "fuel"]) "fuel"
        = some col' ∧
      col'.vals = [Value.vstr "0", Value.vnan, Value.vstr "Petrol"] := by
  obtain ⟨col', hcol', _, hother⟩ :=
    C3_categorical_sentinels exFrameCat ["transmission", "fuel"]
      (by decide) "fuel" (by decide)
      ⟨Dtype.objectD, [Value.vstr "0", Value.vstr "na", Value.vstr "Petrol"]⟩ (by decide)
  exact ⟨col', hcol', by rw [hother (by decide)]; decide⟩

/-- C10: the categorical normalizer (for any frame and any column list)
leaves every `transmission` cell other than the literal `"0"` unchanged,
and across the entire cleaning pipeline a `transmission` cell holding the
literal `"na"` survives — it is never mapped to the missing marker. -/
theorem C10_transmission_na_survives :
    (∀ (d : Dataset) (cats : List String) (col : Col),
      getCol d "transmission" = some col →
      ∃ col', getCol (data_clean_categorical d cats) "transmission" = some col' ∧
        keep0 col col') ∧
    (∀ (d : Dataset) (col : Col),
      getCol d "transmission" = some col →
      ∃ col', getCol (cleaningPipeline d) "transmission" = some col' ∧
        keep0 col col' ∧
        ∀ i (h1 : i < col.vals.length) (h2 : i < col'.vals.length),
          col.vals.get ⟨i, h1⟩ = Value.vstr "na" →
            col'.vals.get ⟨i, h2⟩ = Value.vstr "na") := by
  have hstage : ∀ (d : Dataset) (cats : List String) (col : Col),
      getCol d "transmission" = some col →
      ∃ col', getCol (data_clean_categorical d cats) "transmission" = some col' ∧
        keep0 col col' := by
    intro d cats col hcol
    exact cleanCat_keep0 cats d hcol (keep0_refl col)
  refine ⟨hstage, ?_⟩
  intro d col hcol
  have hnum : getCol (data_cleaning_numerical d) "transmission" = some col := by
    rw [cleanNum_getCol_other d "transmission"
      (by decide) (by decide) (by decide) (by decide)]
    exact hcol
  obtain ⟨col', hcol', hk⟩ :=
    hstage (data_cleaning_numerical d)
      (divide_columns (data_cleaning_numerical d)).2 col hnum
  refine ⟨col', hcol', hk, ?_⟩
  intro i h1 h2 hna
  rw [hk.2.2 i h1 h2 (by rw [hna]; decide), hna]

/-- Witness for C10 at a concrete frame: the `"na"` in `transmission`
survives the whole pipeline. -/
theorem C10_transmission_na_survives_witness :
    ∃ col', getCol (cleaningPipeline exFrameClean) "transmission" = some col' ∧
      ∀ h2 : 1 < col'.vals.length, col'.vals.get ⟨1, h2⟩ = Value.vstr "na" := by
  obtain ⟨col', hcol', hk, hna⟩ :=
    C10_transmission_na_survives.2 exFrameClean
      ⟨Dtype.objectD, [Value.vstr "0", Value.vstr "na"]⟩ (by decide)
  exact ⟨col', hcol', fun h2 => hna 1 (by decide) h2 (by decide)⟩

/-- C4: for every frame and valid fraction, the split returns a pair whose
multiset union of rows is exactly the input frame's rows — every row lands
in exactly one side, counted with multiplicity. -/
theorem C4_split_partition {α : Type} [DecidableEq α] (d : List α) (f : ℚ)
    (s : Nat) (h0 : 0 < f) (h1 : f < 1) :
    ∃ train test, split_data d f s = Except.ok (train, test) ∧
      (train ++ test).Perm d ∧
      ∀ r, train.count r + test.count r = d.count r := by
  have hperm : ((shuffleRows s d).drop ((round (f * (d.length : ℚ))).toNat)
      ++ (shuffleRows s d).take ((round (f * (d.length : ℚ))).toNat)).Perm d := by
    refine List.Perm.trans (List.perm_append_comm) ?_
    rw [List.take_append_drop]
    exact shuffleRows_perm s d
  refine ⟨(shuffleRows s d).drop ((round (f * (d.length : ℚ))).toNat),
    (shuffleRows s d).take ((round (f * (d.length : ℚ))).toNat), ?_, hperm, ?_⟩
  · unfold split_data train_test_split
    rw [if_pos ⟨h0, h1⟩]
  · intro r
    have h := hperm.count_eq r
    rwa [List.count_append] at h

/-- Witness for C4 at a concrete frame. -/
theorem C4_split_partition_witness :
    (0 : ℚ) < 1 / 2 ∧ ((1 : ℚ) / 2) < 1 ∧
    ∃ train test, split_data [10, 20, 30] (1 / 2) 7 = Except.ok (train, test) ∧
      (train ++ test).Perm [10, 20, 30] := by
  obtain ⟨train, test, hok, hperm, _⟩ :=
    C4_split_partition [10, 20, 30] (1 / 2) 7 (by norm_num) (by norm_num)
  exact ⟨by norm_num, by norm_num, train, test, hok, hperm⟩

/-- C6: for every frame of `n` rows and valid fraction, the test side gets
exactly `round(f * n)` rows and the train side the remaining
`n - round(f * n)` rows. -/
theorem C6_split_sizes {α : Type} (d : List α) (f : ℚ) (s : Nat)
    (h0 : 0 < f) (h1 : f < 1) :
    ∃ train test, split_data d f s = Except.ok (train, test) ∧
      test.length = (round (f * (d.length : ℚ))).toNat ∧
      train.length = d.length - (round (f * (d.length : ℚ))).toNat := by
  have hk : (round (f * (d.length : ℚ))).toNat ≤ d.length := by
    rw [Int.toNat_le]
    exact_mod_cast round_mul_le f d.length h1
  refine ⟨(shuffleRows s d).drop ((round (f * (d.length : ℚ))).toNat),
    (shuffleRows s d).take ((round (f * (d.length : ℚ))).toNat), ?_, ?_, ?_⟩
  · unfold split_data train_test_split
    rw [if_pos ⟨h0, h1⟩]
  · rw [List.length_take, shuffleRows_length]
    exact min_eq_left hk
  · rw [List.length_drop, shuffleRows_length]

/-- Witness for C6 at 100 rows and fraction 0.2: test 20 rows, train 80. -/
theorem C6_split_sizes_witness :
    ∃ train test,
      split_data (List.range 100) (1 / 5) 42 = Except.ok (train, test) ∧
      test.length = 20 ∧ train.length = 80 := by
  obtain ⟨train, test, hok, hte, htr⟩ :=
    C6_split_sizes (List.range 100) (1 / 5) 42 (by norm_num) (by norm_num)
  have hround : (round ((1 / 5 : ℚ) * ((List.range 100).length : ℚ))).toNat = 20 := by
    rw [List.length_range]
    norm_num [round_eq]
    decide
  exact ⟨train, test, hok, by rw [hte, hround], by rw [htr, hround]; rfl⟩

theorem divide_columns_fst (d : Dataset) :
    (divide_columns d).1 = (colNames d).filter (isNumericName d) := rfl

theorem divide_columns_snd (d : Dataset) :
    (divide_columns d).2 = (colNames d).filter
      (fun n => ¬ ((colNames d).filter (isNumericName d)).contains n) := rfl

/-- C7 (counterexample): the cleaning pipeline is NOT idempotent in general.
On `exFrameNonIdem` the first run's comma removal turns `price` cell
`"n,a"` into the string `"na"`, `astype(float)` raises (so `price` keeps
its strings), and the categorical stage replaces that `"na"` by `NaN`; the
second run's `astype(float)` then succeeds on the leftover `"5"`, turning
it into the float `5.0` — a different (and differently serialised)
frame. -/
theorem C7_not_idempotent :
    cleaningPipeline (cleaningPipeline exFrameNonIdem) ≠ cleaningPipeline exFrameNonIdem := by
  decide

/-- C7 (amended): the cleaning pipeline is idempotent on every dataset on
which the numerical stage completes without an internal exception (in
particular on any frame whose `price`/`mileage`/`date` values all parse):
running the full pipeline a second time returns the first run's output
unchanged. -/
theorem C7_idempotent_on_success (d : Dataset)
    (h : (cleanNumBody d).isOk = true) :
    cleaningPipeline (cleaningPipeline d) = cleaningPipeline d := by
  obtain ⟨r, hr⟩ : ∃ r, cleanNumBody d = Except.ok r := by
    cases hb : cleanNumBody d with
    | ok r => exact ⟨r, rfl⟩
    | error p =>
        rw [hb] at h
        simp [Except.isOk, Except.toBool] at h
  have hnum : data_cleaning_numerical d = r := by
    simp [data_cleaning_numerical, hr, runCatch]
  obtain ⟨⟨cd, hcd, hcdF⟩, ⟨cp, hcp, hcpF⟩, ⟨cm, hcm, hcmF⟩, hU⟩ :=
    cleanNumBody_ok_spec hr
  have hcatsmem : ∀ c ∈ (divide_columns r).2, hasCol r c = true := by
    intro c hc
    rw [divide_columns_snd] at hc
    exact hasCol_iff_mem.mpr (List.mem_filter.mp hc).1
  obtain ⟨r', hr'ok, hget⟩ := cleanCatBody_spec (divide_columns r).2 r hcatsmem
  have hcat : data_clean_categorical r (divide_columns r).2 = r' := by
    simp [data_clean_categorical, hr'ok, runCatch]
  have hpipe : cleaningPipeline d = r' := by
    unfold cleaningPipeline
    rw [hnum, hcat]
  rw [hpipe]
  have hnames : colNames r' = colNames r := by
    have hcn := colNames_cleanCatBody (divide_columns r).2 r
    rw [hr'ok] at hcn
    exact hcn
  have hdate_nums : "date" ∈ (divide_columns r).1 := by
    rw [divide_columns_fst]
    refine List.mem_filter.mpr ⟨hasCol_iff_mem.mp (hasCol_of_getCol hcd), ?_⟩
    simp [isNumericName, hcd, hcdF.1]
  have hprice_nums : "price" ∈ (divide_columns r).1 := by
    rw [divide_columns_fst]
    refine List.mem_filter.mpr ⟨hasCol_iff_mem.mp (hasCol_of_getCol hcp), ?_⟩
    simp [isNumericName, hcp, hcpF.1]
  have hnot_cats : ∀ n, n ∈ (divide_columns r).1 → n ∉ (divide_columns r).2 := by
    intro n hn hc
    rw [divide_columns_snd] at hc
    have h2 := (List.mem_filter.mp hc).2
    rw [divide_columns_fst] at hn
    have hn' := List.mem_filter.mp hn
    simp at h2
    rcases h2 with h2 | h2
    · exact h2 hn'.1
    · exact absurd (hn'.2.symm.trans h2) (by decide)
  have hdate' : getCol r' "date" = some cd := by
    rw [hget "date", if_neg (hnot_cats _ hdate_nums), hcd]
  have hprice' : getCol r' "price" = some cp := by
    rw [hget "price", if_neg (hnot_cats _ hprice_nums), hcp]
  have hU' : hasCol r' "Unnamed: 0" = false := by
    have hhasU : hasCol r' "Unnamed: 0" = hasCol r "Unnamed: 0" := by
      rw [hasCol, hasCol, hget "Unnamed: 0"]
      by_cases hmem : "Unnamed: 0" ∈ (divide_columns r).2
      · rw [if_pos hmem]
        cases getCol r "Unnamed: 0" <;> simp
      · rw [if_neg hmem]
    rw [hhasU]
    exact hU
  have hnum' : data_cleaning_numerical r' = r' :=
    cleanNum_id_of_clean hU' ⟨cd, hdate', hcdF⟩ ⟨cp, hprice', hcpF⟩
  have hfix : ∀ c ∈ (divide_columns r').2,
      ∃ col, getCol r' c = some col ∧ colRule c col = col := by
    intro c hc
    have hcnames : c ∈ colNames r' := by
      rw [divide_columns_snd] at hc
      exact (List.mem_filter.mp hc).1
    by_cases hc1 : c ∈ (divide_columns r).2
    · obtain ⟨colc, hcolc⟩ : ∃ colc, getCol r c = some colc := by
        have hhc := hcatsmem c hc1
        cases hg : getCol r c
        · rw [hasCol, hg] at hhc
          simp at hhc
        · exact ⟨_, rfl⟩
      refine ⟨colRule c colc, ?_, colRule_idem c colc⟩
      rw [hget c, if_pos hc1, hcolc]
      rfl
    · exfalso
      have hcr : c ∈ colNames r := by
        rw [hnames] at hcnames
        exact hcnames
      have hc_nums1 : c ∈ (divide_columns r).1 := by
        by_contra hcn
        apply hc1
        rw [divide_columns_snd]
        refine List.mem_filter.mpr ⟨hcr, ?_⟩
        rw [divide_columns_fst] at hcn
        have himp : c ∈ colNames r → isNumericName r c = false := by
          simpa using hcn
        simp
        exact Or.inr (himp hcr)
      rw [divide_columns_fst] at hc_nums1
      have hnum_c := (List.mem_filter.mp hc_nums1).2
      obtain ⟨colc, hcolc⟩ : ∃ colc, getCol r c = some colc := by
        cases hg : getCol r c
        · simp [isNumericName, hg] at hnum_c
        · exact ⟨_, rfl⟩
      have hdt : ¬ colc.dtype = Dtype.objectD := by
        simp [isNumericName, hcolc] at hnum_c
        exact hnum_c
      have hcol' : getCol r' c = some colc := by
        have hc1' : c ∉ (divide_columns r).2 := hc1
        rw [hget c, if_neg hc1', hcolc]
      have hc_nums2 : c ∈ (divide_columns r').1 := by
        rw [divide_columns_fst]
        refine List.mem_filter.mpr ⟨hcnames, ?_⟩
        simp [isNumericName, hcol', hdt]
      rw [divide_columns_snd] at hc
      have h2 := (List.mem_filter.mp hc).2
      rw [divide_columns_fst] at hc_nums2
      have hc2' := List.mem_filter.mp hc_nums2
      simp at h2
      rcases h2 with h2 | h2
      · exact h2 hc2'.1
      · exact absurd (hc2'.2.symm.trans h2) (by decide)
  have hcat' : data_clean_categorical r' (divide_columns r').2 = r' := by
    simp [data_clean_categorical, cleanCatBody_id_of_fixed _ _ hfix, runCatch]
  show cleaningPipeline r' = r'
  unfold cleaningPipeline
  rw [hnum', hcat']

/-- Witness for C7 (amended) at a concrete frame on which the numerical
stage succeeds. -/
theorem C7_idempotent_on_success_witness :
    (cleanNumBody exFrameClean).isOk = true ∧
    cleaningPipeline (cleaningPipeline exFrameClean) = cleaningPipeline exFrameClean :=
  ⟨by decide, C7_idempotent_on_success exFrameClean (by decide)⟩

end CarPrice
